import Mathlib

/-!
Shallow embedding of the consequence-ledger hash-chain core:
src/ledger.py, src/ai_layer.py and src/finalize.py.

Modelling conventions:
* sha256_hex is modelled as an explicit parameter H : String → String;
  theorems that depend on the absence of a hash collision take the needed
  inequality as an explicit hypothesis at the instance where it is used.
* A file on disk is an Option String (none = file absent).
* The SQLite table ledger_events is a List LedgerEvent in insertion
  order; ORDER BY created_at is a stable insertion sort on the
  created_at column, ties keeping insertion order, which matches an
  ascending index scan.  ORDER BY created_at DESC LIMIT 1 is the last
  element of that stable ascending sort.
* Python str.strip is modelled over the ASCII whitespace characters
  space, tab, newline, carriage return, vertical tab and form feed.
-/

namespace ConsequenceLedger

/-- Sentinel prev hash GENESIS, ledger.py line 38 and ai_layer.py line 34. -/
def GENESIS_HASH : String := "GENESIS"

/-- Characters removed by Python str.strip, restricted to ASCII. -/
def isPyWs (c : Char) : Bool :=
  c = ' ' || c = '\t' || c = '\n' || c = '\r' || c.toNat = 11 || c.toNat = 12

/-- Remove trailing whitespace from a character list. -/
def stripR (l : List Char) : List Char :=
  (l.reverse.dropWhile isPyWs).reverse

/-- Remove leading and trailing whitespace from a character list. -/
def stripChars (l : List Char) : List Char :=
  stripR (l.dropWhile isPyWs)

/-- Python str.strip on a String (ASCII whitespace). -/
def pyStrip (s : String) : String :=
  String.mk (stripChars s.data)

/-- Split a character list at newline characters; models iterating the
lines of a file (and str.splitlines restricted to the newline
character). -/
def splitCh : List Char → List (List Char)
  | [] => [[]]
  | c :: cs =>
    if c = '\n' then [] :: splitCh cs
    else ((c :: (splitCh cs).headD []) :: (splitCh cs).tail)

/-- Python s.split(a char, maxsplit 1) at the first equals sign: the part
before the first equals sign and the part after it.  When the list holds
no equals sign the second component is empty; callers guard with a
containment check exactly as the Python code does. -/
def splitEq1 : List Char → List Char × List Char
  | [] => ([], [])
  | c :: cs =>
    if c = '=' then ([], cs)
    else ((c :: (splitEq1 cs).1), (splitEq1 cs).2)

/-- Python str.startswith on character lists: the second list read off
the front of the first. -/
def beginsWith : List Char → List Char → Bool
  | _, [] => true
  | [], _ :: _ => false
  | c :: cs, p :: ps => c = p && beginsWith cs ps

/-- Lexicographic order on character lists by code point; models the
Python string order used by sorted and by comparison of created_at
values. -/
def leChars : List Char → List Char → Bool
  | [], _ => true
  | _ :: _, [] => false
  | a :: as, b :: bs =>
    if a.toNat < b.toNat then true
    else if b.toNat < a.toNat then false
    else leChars as bs

/-- Python string less-or-equal (code point lexicographic). -/
def leStr (a b : String) : Bool :=
  leChars a.data b.data

/-- Stable insert for insertion sort: the new element goes before the
first element it is less-or-equal to, hence after earlier equal keys
only when inserted later, matching Python sorted stability. -/
def insertBy (le : α → α → Bool) (a : α) : List α → List α
  | [] => [a]
  | b :: l => if le a b then a :: b :: l else b :: insertBy le a l

/-- Stable insertion sort, models Python sorted and the SQLite ORDER BY
with ties kept in insertion order. -/
def sortBy (le : α → α → Bool) : List α → List α
  | [] => []
  | a :: l => insertBy le a (sortBy le l)

/-- Consecutive-pairs ordering check: the list is nondecreasing under le. -/
def chainB (le : α → α → Bool) : List α → Bool
  | [] => true
  | [_] => true
  | a :: b :: l => le a b && chainB le (b :: l)

/-! ## JSON values and canonical serialization

Models the payload dictionaries passed to append_event and the function
canonical_json, which both ledger.py (lines 61 and 66) and ai_layer.py
(lines 42 and 43) define identically as
json.dumps(obj, ensure_ascii=False, sort_keys=True, separators=(",", ":")).
Numbers are restricted to integers, which covers every payload the
repository builds. -/

inductive Json where
  | null : Json
  | bool : Bool → Json
  | num : Int → Json
  | str : String → Json
  | arr : List Json → Json
  | obj : List (String × Json) → Json

/-- Lowercase hex digit. -/
def hexDigitCh (n : Nat) : Char :=
  if n < 10 then Char.ofNat (48 + n) else Char.ofNat (87 + n)

/-- Two lowercase hex digits of a byte. -/
def hex2 (n : Nat) : String :=
  String.mk [hexDigitCh (n / 16 % 16), hexDigitCh (n % 16)]

/-- Escaping of one character inside a JSON string as json.dumps with
ensure_ascii=False performs it: the two mandatory escapes, the short
control escapes, a numeric escape for the remaining control characters,
and every other character written as itself. -/
def escCh (c : Char) : String :=
  if c = '"' then "\\\""
  else if c = '\\' then "\\\\"
  else if c = '\n' then "\\n"
  else if c = '\r' then "\\r"
  else if c = '\t' then "\\t"
  else if c.toNat = 8 then "\\b"
  else if c.toNat = 12 then "\\f"
  else if c.toNat < 32 then "\\u00" ++ hex2 c.toNat
  else String.singleton c

/-- A JSON string literal with its quotes. -/
def quoteJson (s : String) : String :=
  "\"" ++ String.join (s.data.map escCh) ++ "\""

/-- Comma separator of json.dumps with separators=(",", ":"). -/
def joinComma : List String → String
  | [] => ""
  | [x] => x
  | x :: xs => x ++ "," ++ joinComma xs

mutual

/-- json.dumps with ensure_ascii=False, sort_keys=True and
separators=(",", ":"): object members are rendered as key:value and then
ordered by key with the stable sort, matching Python sorted over
dictionary keys. -/
def dumpJson : Json → String
  | .null => "null"
  | .bool true => "true"
  | .bool false => "false"
  | .num n => toString n
  | .str s => quoteJson s
  | .arr es => "[" ++ joinComma (dumpArr es) ++ "]"
  | .obj kvs =>
      "\x7b" ++
        joinComma ((sortBy (fun p q => leStr p.1 q.1) (dumpMembers kvs)).map Prod.snd) ++
      "\x7d"

/-- Rendered elements of a JSON array, in order. -/
def dumpArr : List Json → List String
  | [] => []
  | j :: js => dumpJson j :: dumpArr js

/-- Each object member paired with its rendered key:value text. -/
def dumpMembers : List (String × Json) → List (String × String)
  | [] => []
  | (k, v) :: r => (k, quoteJson k ++ ":" ++ dumpJson v) :: dumpMembers r

end

/-! ## The ledger_events table -/

/-- One row of the ledger_events table, schema in ledger.py lines
129-138. -/
structure LedgerEvent where
  event_id : String
  created_at : String
  event_type : String
  entity_type : String
  entity_id : String
  payload_json : String
  prev_hash : String
  event_hash : String
deriving Repr, DecidableEq, Inhabited

/-- Decidable equality of call outcomes, so witnesses can evaluate. -/
instance {ε α : Type} [DecidableEq ε] [DecidableEq α] : DecidableEq (Except ε α) := fun a b =>
  match a, b with
  | .ok x, .ok y =>
    if h : x = y then .isTrue (by rw [h]) else .isFalse (by intro hc; cases hc; exact h rfl)
  | .error x, .error y =>
    if h : x = y then .isTrue (by rw [h]) else .isFalse (by intro hc; cases hc; exact h rfl)
  | .ok _, .error _ => .isFalse (by intro hc; cases hc)
  | .error _, .ok _ => .isFalse (by intro hc; cases hc)

/-- Caller-supplied arguments of one append_event call; event_id stands
for the uuid the code draws. -/
structure EventInput where
  event_id : String
  event_type : String
  entity_type : String
  entity_id : String
  created_at : String
  payload : Json

/-- Ordering of rows by the created_at column. -/
def leCreated (a b : LedgerEvent) : Bool :=
  leStr a.created_at b.created_at

/-- SELECT * FROM ledger_events ORDER BY created_at ASC. -/
def eventsAsc (store : List LedgerEvent) : List LedgerEvent :=
  sortBy leCreated store

/-- The hash material recomputed by the verifier from the stored fields,
ledger.py line 234: the fields joined by the pipe character.  Note that
event_id and event_hash are not part of it. -/
def eventMaterial (e : LedgerEvent) : String :=
  e.prev_hash ++ "|" ++ e.created_at ++ "|" ++ e.event_type ++ "|" ++
    e.entity_type ++ "|" ++ e.entity_id ++ "|" ++ e.payload_json

/-- The last stored hash of a list of rows, GENESIS when empty. -/
def lastHash (s : List LedgerEvent) : String :=
  match s.getLast? with
  | some e => e.event_hash
  | none => GENESIS_HASH

/-- The single error raised on a duplicate event_hash: the UNIQUE index
idx_ledger_events_event_hash (ledger.py line 141) makes the INSERT fail,
the DuplicateEventError of the specification. -/
inductive AppendError where
  | duplicate : AppendError
deriving Repr, DecidableEq

/-- Errors of verify_chain: a broken prev_hash link (ChainIntegrityError)
or a recomputed-hash mismatch (TamperError), each carrying the 1-based
index the code reports. -/
inductive ChainError where
  | chainBroken : Nat → ChainError
  | tamper : Nat → ChainError
deriving Repr, DecidableEq

/-- Errors surfaced by verify_anchor and daily_publish. -/
inductive PubError where
  | chain : ChainError → PubError
  | anchorNotFound : PubError
  | missingLatest : PubError
  | mismatch : PubError
  | transmission : PubError
deriving Repr, DecidableEq

/-- The two anchor files: ANCHOR.txt and ANCHOR_HISTORY.log, each either
absent or holding a full text content. -/
structure AnchorState where
  anchorFile : Option String
  historyFile : Option String
deriving Repr, DecidableEq

/-- Last-binding-wins lookup, modelling the Python dict that
read_anchor_file fills line by line. -/
def lookupLast (k : String) (l : List (String × String)) : Option String :=
  l.foldl (fun acc p => if p.1 = k then some p.2 else acc) none

/-- One parsing step of read_anchor_file, ledger.py lines 182-187: strip
the line, and when it holds an equals sign split at the first one and
record the stripped key and stripped value. -/
def parseLine (acc : List (String × String)) (l : List Char) : List (String × String) :=
  let l2 := stripChars l
  if l2.contains '=' then
    acc ++ [(String.mk (stripChars (splitEq1 l2).1), String.mk (stripChars (splitEq1 l2).2))]
  else acc

/-- The key=value record read_anchor_file builds from a file content. -/
def parseKV (content : String) : List (String × String) :=
  (splitCh content.data).foldl parseLine []

/-! ## ledger.py -/

namespace Ledger

/-- canonical_json, ledger.py lines 61-62. -/
def canonical_json (obj : Json) : String :=
  dumpJson obj

/-- get_last_event_hash, ledger.py lines 194-196: the event_hash of the
row ORDER BY created_at DESC LIMIT 1, or GENESIS when the table is
empty. -/
def get_last_event_hash (store : List LedgerEvent) : String :=
  lastHash (eventsAsc store)

/-- append_event, ledger.py lines 199-220, together with the UNIQUE
index on event_hash: reads the tip, canonicalizes the payload, joins the
material with the pipe character, hashes it, and inserts the new row.
When the computed event_hash already exists the INSERT fails and the
table is unchanged.  Returns the table after the call and the outcome. -/
def append_event (H : String → String) (store : List LedgerEvent) (inp : EventInput) :
    List LedgerEvent × Except AppendError String :=
  let prev_hash := get_last_event_hash store
  let payload_json := canonical_json inp.payload
  let material := prev_hash ++ "|" ++ inp.created_at ++ "|" ++ inp.event_type ++ "|" ++
    inp.entity_type ++ "|" ++ inp.entity_id ++ "|" ++ payload_json
  let event_hash := H material
  if store.any (fun e => e.event_hash = event_hash) then
    (store, .error .duplicate)
  else
    (store ++ [{ event_id := inp.event_id, created_at := inp.created_at,
                 event_type := inp.event_type, entity_type := inp.entity_type,
                 entity_id := inp.entity_id, payload_json := payload_json,
                 prev_hash := prev_hash, event_hash := event_hash }],
     .ok event_hash)

/-- A sequence of append_event calls, one at a time; none when any call
fails with the duplicate error. -/
def appendEvents (H : String → String) (store : List LedgerEvent) :
    List EventInput → Option (List LedgerEvent)
  | [] => some store
  | i :: is =>
    match append_event H store i with
    | (s2, .ok _) => appendEvents H s2 is
    | (_, .error _) => none

/-- The event_hash append_event computes for a call: current tip and the
caller fields joined by pipes, hashed; names the value the duplicate
check compares against existing rows. -/
def computed_event_hash (H : String → String) (store : List LedgerEvent) (inp : EventInput) :
    String :=
  H (get_last_event_hash store ++ "|" ++ inp.created_at ++ "|" ++ inp.event_type ++ "|" ++
    inp.entity_type ++ "|" ++ inp.entity_id ++ "|" ++ canonical_json inp.payload)

/-- The verification loop of verify_chain, ledger.py lines 230-238:
walks the rows carrying the expected previous hash and the 1-based index,
raises ChainIntegrityError on a prev_hash mismatch, recomputes the hash
and raises TamperError on a mismatch, and finally returns the last
stored hash. -/
def verifyFrom (H : String → String) : String → Nat → List LedgerEvent → Except ChainError String
  | prev, _, [] => .ok prev
  | prev, idx, e :: es =>
    if e.prev_hash ≠ prev then .error (.chainBroken idx)
    else if H (eventMaterial e) ≠ e.event_hash then .error (.tamper idx)
    else verifyFrom H e.event_hash (idx + 1) es

/-- verify_chain, ledger.py lines 223-242: scans the rows ORDER BY
created_at ASC starting from GENESIS; an empty table yields GENESIS,
which the loop form returns as well. -/
def verify_chain (H : String → String) (store : List LedgerEvent) : Except ChainError String :=
  verifyFrom H GENESIS_HASH 1 (eventsAsc store)

/-- write_anchor_files, ledger.py lines 158-174: overwrites ANCHOR.txt
with the three key=value lines and appends one line to
ANCHOR_HISTORY.log, creating it when absent. -/
def write_anchor_files (a : AnchorState) (latest_hash note created_at : String) : AnchorState :=
  { anchorFile := some ("latest_hash=" ++ latest_hash ++ "\n" ++
      "timestamp=" ++ created_at ++ "\n" ++ "note=" ++ note ++ "\n"),
    historyFile := some ((a.historyFile.getD "") ++
      (created_at ++ " | " ++ latest_hash ++ " | " ++ note) ++ "\n") }

/-- read_anchor_file, ledger.py lines 177-187: raises when the file is
absent, otherwise builds the key=value record from the lines. -/
def read_anchor_file (file : Option String) : Except Unit (List (String × String)) :=
  match file with
  | none => .error ()
  | some content => .ok (parseKV content)

/-- verify_anchor, ledger.py lines 245-255: verifies the chain, reads
the anchor file, raises when the latest_hash entry is missing or empty
(the Python truthiness test), and raises on a mismatch with the chain
tip. -/
def verify_anchor (H : String → String) (store : List LedgerEvent) (file : Option String) :
    Except PubError Unit :=
  match verify_chain H store with
  | .error e => .error (.chain e)
  | .ok dbLast =>
    match read_anchor_file file with
    | .error _ => .error .anchorNotFound
    | .ok kvs =>
      match lookupLast "latest_hash" kvs with
      | none => .error .missingLatest
      | some v =>
        if v = "" then .error .missingLatest
        else if dbLast ≠ v then .error .mismatch
        else .ok ()

/-- daily_publish, ledger.py lines 292-329: verify the chain, write the
two anchor files, re-check the anchor against the store, then send the
email.  The wall clock utc_now_iso and today_utc are the parameters ts
and dateStr, and send_email succeeding or raising (for any cause,
including missing SMTP configuration) is the parameter emailOk.  Returns
the table, the anchor files and the error at the point the Python
function raises, if any. -/
def daily_publish (H : String → String) (store : List LedgerEvent) (a : AnchorState)
    (ts dateStr label : String) (emailOk : Bool) :
    List LedgerEvent × AnchorState × Option PubError :=
  match verify_chain H store with
  | .error e => (store, a, some (.chain e))
  | .ok tip =>
    let note := pyStrip ("DAILY_ANCHOR " ++ dateStr ++ " " ++ label)
    let a2 := write_anchor_files a tip note ts
    match verify_anchor H store a2.anchorFile with
    | .error e => (store, a2, some e)
    | .ok _ => if emailOk then (store, a2, none) else (store, a2, some .transmission)

end Ledger

/-- The value read_anchor_file(...).get of the latest_hash key yields in
verify_anchor: none when the file is absent or the key missing. -/
def anchor_latest (file : Option String) : Option String :=
  match Ledger.read_anchor_file file with
  | .error _ => none
  | .ok kvs => lookupLast "latest_hash" kvs

/-! ## ai_layer.py

The chain builder and anchor writer of ai_layer.py (lines 42-63 and
86-101) repeat the ledger.py code verbatim; they are embedded separately
so the cross-implementation claims compare two definitions. -/

namespace AiLayer

/-- canonical_json, ai_layer.py lines 42-43. -/
def canonical_json (obj : Json) : String :=
  dumpJson obj

/-- get_last_event_hash, ai_layer.py lines 82-84. -/
def get_last_event_hash (store : List LedgerEvent) : String :=
  lastHash (eventsAsc store)

/-- append_event, ai_layer.py lines 86-101, inserting into the same
ledger_events table with the same UNIQUE event_hash index. -/
def append_event (H : String → String) (store : List LedgerEvent) (inp : EventInput) :
    List LedgerEvent × Except AppendError String :=
  let prev_hash := get_last_event_hash store
  let payload_json := canonical_json inp.payload
  let material := prev_hash ++ "|" ++ inp.created_at ++ "|" ++ inp.event_type ++ "|" ++
    inp.entity_type ++ "|" ++ inp.entity_id ++ "|" ++ payload_json
  let event_hash := H material
  if store.any (fun e => e.event_hash = event_hash) then
    (store, .error .duplicate)
  else
    (store ++ [{ event_id := inp.event_id, created_at := inp.created_at,
                 event_type := inp.event_type, entity_type := inp.entity_type,
                 entity_id := inp.entity_id, payload_json := payload_json,
                 prev_hash := prev_hash, event_hash := event_hash }],
     .ok event_hash)

/-- A sequence of ai_layer append_event calls. -/
def appendEvents (H : String → String) (store : List LedgerEvent) :
    List EventInput → Option (List LedgerEvent)
  | [] => some store
  | i :: is =>
    match append_event H store i with
    | (s2, .ok _) => appendEvents H s2 is
    | (_, .error _) => none

/-- write_anchor_files, ai_layer.py lines 57-63. -/
def write_anchor_files (a : AnchorState) (latest_hash note created_at : String) : AnchorState :=
  { anchorFile := some ("latest_hash=" ++ latest_hash ++ "\n" ++
      "timestamp=" ++ created_at ++ "\n" ++ "note=" ++ note ++ "\n"),
    historyFile := some ((a.historyFile.getD "") ++
      (created_at ++ " | " ++ latest_hash ++ " | " ++ note) ++ "\n") }

end AiLayer

/-! ## finalize.py -/

namespace Finalize

/-- read_prev_anchor, finalize.py lines 31-52: GENESIS when the file is
absent or blank; the value of the first latest_hash= line when one
exists; otherwise the whole first line, stripped. -/
def read_prev_anchor (file : Option String) : String :=
  match file with
  | none => "GENESIS"
  | some content =>
    let c := pyStrip content
    if c = "" then "GENESIS"
    else
      let lines := (splitCh c.data).map String.mk
      match lines.find? (fun l => beginsWith (pyStrip l).data "latest_hash=".data) with
      | some l => pyStrip (String.mk (splitEq1 (pyStrip l).data).2)
      | none => pyStrip (lines.headD "")

/-- append_history_line, finalize.py lines 55-61: rewrites the history
file as its previous content (empty when absent) with the record line
and a newline at the end. -/
def append_history_line (history : Option String) (record_line : String) : Option String :=
  some ((history.getD "") ++ record_line ++ "\n")

/-- write_anchor_file, finalize.py lines 64-73, with the wall clock as
the parameter ts. -/
def write_anchor_file (new_hash note ts : String) : Option String :=
  some ("latest_hash=" ++ new_hash ++ "\n" ++ "timestamp=" ++ ts ++ "\n" ++
    "note=" ++ note ++ "\n")

/-- anchor_record, finalize.py lines 76-88: hashes the previous anchor
value and the record line joined by a newline, appends the history line,
overwrites ANCHOR.txt with the new hash, and returns it.  The
ledger_events table is not consulted. -/
def anchor_record (H : String → String) (a : AnchorState) (record_line note ts : String) :
    AnchorState × String :=
  let prev := read_prev_anchor a.anchorFile
  let new_hash := H (prev ++ "\n" ++ record_line)
  { anchorFile := write_anchor_file new_hash note ts,
    historyFile := append_history_line a.historyFile
      (record_line ++ " | " ++ new_hash ++ " | " ++ note) } |> fun a2 => (a2, new_hash)

end Finalize

/-! ## Mutation of a stored row

Models a direct UPDATE of one column of one ledger_events row, the
tampering the verifier is meant to detect. -/

/-- The eight stored columns of a ledger_events row. -/
inductive EvField where
  | fId | fCreated | fType | fEntityType | fEntityId | fPayload | fPrev | fHash
deriving Repr, DecidableEq

/-- Overwrite one column of a row with a new value. -/
def setField (e : LedgerEvent) : EvField → String → LedgerEvent
  | .fId, v => { e with event_id := v }
  | .fCreated, v => { e with created_at := v }
  | .fType, v => { e with event_type := v }
  | .fEntityType, v => { e with entity_type := v }
  | .fEntityId, v => { e with entity_id := v }
  | .fPayload, v => { e with payload_json := v }
  | .fPrev, v => { e with prev_hash := v }
  | .fHash, v => { e with event_hash := v }

/-- Read one column of a row. -/
def fieldVal (e : LedgerEvent) : EvField → String
  | .fId => e.event_id
  | .fCreated => e.created_at
  | .fType => e.event_type
  | .fEntityType => e.entity_type
  | .fEntityId => e.entity_id
  | .fPayload => e.payload_json
  | .fPrev => e.prev_hash
  | .fHash => e.event_hash

/-! ## Concrete instances used by witnesses and counterexamples -/

/-- Concrete stand-in for the hash parameter in witnesses; every
hypothesis a claim theorem places on the hash is discharged at the
specific strings where it is used. -/
def demoHash (s : String) : String :=
  "h(" ++ s ++ ")"

/-- A concrete payload. -/
def demoPayload : Json :=
  Json.obj [("text", Json.str "hello"), ("category", Json.str "belief")]

/-- First concrete append input. -/
def demoInput1 : EventInput :=
  { event_id := "id-1", event_type := "memory.add", entity_type := "memory",
    entity_id := "m-1", created_at := "2026-01-01T00:00:00Z", payload := demoPayload }

/-- Second concrete append input, one second later. -/
def demoInput2 : EventInput :=
  { event_id := "id-2", event_type := "decision.create", entity_type := "decision",
    entity_id := "d-1", created_at := "2026-01-01T00:00:01Z", payload := Json.null }

/-- The store after appending the two concrete inputs in order. -/
def demoStore : List LedgerEvent :=
  (Ledger.appendEvents demoHash [] [demoInput1, demoInput2]).getD []

/-- The two concrete inputs with the timestamps swapped, so the second
append carries the earlier created_at. -/
def demoStoreOoo : List LedgerEvent :=
  (Ledger.appendEvents demoHash []
    [{ demoInput1 with created_at := "2026-01-02T00:00:00Z" },
     { demoInput2 with created_at := "2026-01-01T00:00:00Z" }]).getD []

/-- A concrete anchor state with some prior history. -/
def demoAnchor : AnchorState :=
  { anchorFile := some ("latest_hash=old\n" ++ "timestamp=t0\n" ++ "note=n0\n"),
    historyFile := some "t0 | old | n0\n" }

/-- The first row of the concrete store. -/
def demoEvent1 : LedgerEvent :=
  demoStore.headD default

/-- The second row of the concrete store. -/
def demoEvent2 : LedgerEvent :=
  (demoStore.drop 1).headD default

/-- A second concrete stand-in hash whose output never holds a newline,
so its values are well formed anchor entries even over multi-line
preimages. -/
def demoHashNoLf (s : String) : String :=
  "h" ++ String.mk (s.data.map (fun c => if c = '\n' then '.' else c))

/-- The two concrete inputs appended under the newline-free hash. -/
def demoStoreB : List LedgerEvent :=
  (Ledger.appendEvents demoHashNoLf [] [demoInput1, demoInput2]).getD []

/-- A constant hash, used to realize a duplicate event_hash. -/
def demoConstHash (_ : String) : String :=
  "K"

/-- A row whose stored event_hash equals the constant hash output. -/
def demoDupEvent : LedgerEvent :=
  { event_id := "e0", created_at := "t0", event_type := "x", entity_type := "y",
    entity_id := "z", payload_json := "null", prev_hash := "GENESIS", event_hash := "K" }

/-! ## Supporting lemmas -/

theorem chainB_cons_cons (le : α → α → Bool) (a b : α) (l : List α) :
    chainB le (a :: b :: l) = (le a b && chainB le (b :: l)) := rfl

theorem chainB_tail (le : α → α → Bool) (a : α) (l : List α)
    (h : chainB le (a :: l) = true) : chainB le l = true := by
  cases l with
  | nil => rfl
  | cons b t =>
    rw [chainB_cons_cons] at h
    exact (Bool.and_eq_true_iff.mp h).2

theorem insertBy_of_le (le : α → α → Bool) (a b : α) (l : List α) (h : le a b = true) :
    insertBy le a (b :: l) = a :: b :: l := by
  simp [insertBy, h]

/-- A list already nondecreasing under le is left unchanged by the
stable insertion sort. -/
theorem sortBy_eq_self (le : α → α → Bool) :
    ∀ l : List α, chainB le l = true → sortBy le l = l := by
  intro l
  induction l with
  | nil => intro _; rfl
  | cons a t ih =>
    intro h
    have ht := chainB_tail le a t h
    show insertBy le a (sortBy le t) = a :: t
    rw [ih ht]
    cases t with
    | nil => rfl
    | cons b r =>
      rw [chainB_cons_cons] at h
      exact insertBy_of_le le a b r (Bool.and_eq_true_iff.mp h).1

/-- A nondecreasing list stays nondecreasing when an element at least as
large as its last element is put at the end. -/
theorem chainB_snoc (le : α → α → Bool) :
    ∀ (l : List α) (a : α), chainB le l = true →
      (∀ b, l.getLast? = some b → le b a = true) → chainB le (l ++ [a]) = true := by
  intro l
  induction l with
  | nil => intro a _ _; rfl
  | cons b t ih =>
    intro a h hlast
    cases t with
    | nil =>
      have : le b a = true := hlast b rfl
      simp [chainB_cons_cons, this, chainB]
    | cons c r =>
      rw [chainB_cons_cons] at h
      have h1 := (Bool.and_eq_true_iff.mp h).1
      have h2 := (Bool.and_eq_true_iff.mp h).2
      have := ih a h2 (fun b hb => hlast b (by rw [List.getLast?_cons_cons]; exact hb))
      simpa [chainB_cons_cons, h1] using this

/-- The verification loop split at a list concatenation: the second part
runs from the outcome and position the first part reached. -/
theorem verifyFrom_cat (H : String → String) :
    ∀ (l1 l2 : List LedgerEvent) (p : String) (idx : Nat),
      Ledger.verifyFrom H p idx (l1 ++ l2) =
        (match Ledger.verifyFrom H p idx l1 with
         | .error e => .error e
         | .ok q => Ledger.verifyFrom H q (idx + l1.length) l2) := by
  intro l1
  induction l1 with
  | nil => intro l2 p idx; simp [Ledger.verifyFrom]
  | cons e t ih =>
    intro l2 p idx
    show Ledger.verifyFrom H p idx (e :: (t ++ l2)) = _
    rw [Ledger.verifyFrom]
    by_cases h1 : e.prev_hash ≠ p
    · rw [if_pos h1]
      conv_rhs => rw [Ledger.verifyFrom, if_pos h1]
    · rw [if_neg h1]
      by_cases h2 : H (eventMaterial e) ≠ e.event_hash
      · rw [if_pos h2]
        conv_rhs => rw [Ledger.verifyFrom, if_neg h1, if_pos h2]
      · rw [if_neg h2, ih]
        conv_rhs => rw [Ledger.verifyFrom, if_neg h1, if_neg h2]
        simp only [List.length_cons]
        have harith : idx + 1 + t.length = idx + (t.length + 1) := by omega
        rw [harith]

theorem verifyFrom_nil (H : String → String) (p : String) (idx : Nat) :
    Ledger.verifyFrom H p idx [] = .ok p := rfl

theorem verifyFrom_single_ok (H : String → String) (p : String) (idx : Nat) (e : LedgerEvent)
    (h1 : e.prev_hash = p) (h2 : H (eventMaterial e) = e.event_hash) :
    Ledger.verifyFrom H p idx [e] = .ok e.event_hash := by
  rw [Ledger.verifyFrom, if_neg (by simp [h1]), if_neg (by simp [h2])]
  rfl

theorem verifyFrom_cat_ok {H : String → String} {l1 l2 : List LedgerEvent} {p : String}
    {idx : Nat} {q : String} (h : Ledger.verifyFrom H p idx l1 = .ok q) :
    Ledger.verifyFrom H p idx (l1 ++ l2) = Ledger.verifyFrom H q (idx + l1.length) l2 := by
  rw [verifyFrom_cat, h]

theorem verifyFrom_cat_error {H : String → String} {l1 l2 : List LedgerEvent} {p : String}
    {idx : Nat} {e : ChainError} (h : Ledger.verifyFrom H p idx l1 = .error e) :
    Ledger.verifyFrom H p idx (l1 ++ l2) = .error e := by
  rw [verifyFrom_cat, h]

/-- Invariant maintained by a run of append_event calls whose created_at
arguments are nondecreasing: the store stays in created_at order, and
the verification loop accepts it and returns the hash of its last row. -/
theorem appendEvents_ok (H : String → String) :
    ∀ (inps : List EventInput) (s s2 : List LedgerEvent),
      chainB leCreated s = true →
      Ledger.verifyFrom H GENESIS_HASH 1 s = .ok (lastHash s) →
      (∀ e i, s.getLast? = some e → inps.head? = some i →
        leStr e.created_at i.created_at = true) →
      chainB leStr (inps.map EventInput.created_at) = true →
      Ledger.appendEvents H s inps = some s2 →
      chainB leCreated s2 = true ∧
        Ledger.verifyFrom H GENESIS_HASH 1 s2 = .ok (lastHash s2) := by
  intro inps
  induction inps with
  | nil =>
    intro s s2 hs hv _ _ happ
    simp only [Ledger.appendEvents, Option.some.injEq] at happ
    rw [← happ]
    exact ⟨hs, hv⟩
  | cons i is ih =>
    intro s s2 hs hv hbridge hmono happ
    have hprev : Ledger.get_last_event_hash s = lastHash s := by
      unfold Ledger.get_last_event_hash eventsAsc
      rw [sortBy_eq_self leCreated s hs]
    simp only [Ledger.appendEvents, Ledger.append_event] at happ
    split at happ
    · rename_i s3 a hok
      split at hok
      · exact absurd hok (by simp)
      · injection hok with h1 h2
        subst h1
        refine ih _ s2 ?_ ?_ ?_ ?_ happ
        · refine chainB_snoc leCreated s _ hs ?_
          intro b hb
          exact hbridge b i hb rfl
        · rw [verifyFrom_cat_ok hv, verifyFrom_single_ok H (lastHash s) (1 + s.length) _ hprev rfl]
          unfold lastHash
          rw [List.getLast?_concat]
        · intro e i2 hlast hhead
          rw [List.getLast?_concat, Option.some.injEq] at hlast
          rw [← hlast]
          cases is with
          | nil => simp at hhead
          | cons i3 r =>
            simp only [List.head?_cons, Option.some.injEq] at hhead
            rw [← hhead]
            simp only [List.map_cons] at hmono
            rw [chainB_cons_cons] at hmono
            exact (Bool.and_eq_true_iff.mp hmono).1
        · exact chainB_tail leStr _ _ hmono
    · exact absurd happ (by simp)

/-- Changing the middle part of a pipe-framed concatenation changes the
whole list. -/
theorem mid_ne (a b x y : List Char) (h : x ≠ y) : a ++ (x ++ b) ≠ a ++ (y ++ b) := by
  intro hc
  exact h (List.append_cancel_right (List.append_cancel_left hc))

/-- The data of the pipe separator. -/
theorem pipe_data : ("|" : String).data = ['|'] := rfl

/-- Overwriting any hashed column (created_at, event_type, entity_type,
entity_id or payload_json) with a different value changes the material
the verifier recomputes the hash from: only a hash collision stands
between such a mutation and detection. -/
theorem materialNe (e : LedgerEvent) (f : EvField) (v : String)
    (hf : f ≠ .fPrev ∧ f ≠ .fId ∧ f ≠ .fHash) (hv : v ≠ fieldVal e f) :
    eventMaterial (setField e f v) ≠ eventMaterial e := by
  have hdata : v.data ≠ (fieldVal e f).data := fun hc => hv (String.ext hc)
  cases f with
  | fPrev => exact absurd rfl hf.1
  | fId => exact absurd rfl hf.2.1
  | fHash => exact absurd rfl hf.2.2
  | fCreated =>
    intro hc
    have h2 := congrArg String.data hc
    simp only [eventMaterial, setField, String.data_append, pipe_data, List.append_assoc] at h2
    have h3 := List.append_cancel_left (List.append_cancel_left h2)
    exact hdata (List.append_cancel_right h3)
  | fType =>
    intro hc
    have h2 := congrArg String.data hc
    simp only [eventMaterial, setField, String.data_append, pipe_data, List.append_assoc] at h2
    have h3 := List.append_cancel_left (List.append_cancel_left
      (List.append_cancel_left (List.append_cancel_left h2)))
    exact hdata (List.append_cancel_right h3)
  | fEntityType =>
    intro hc
    have h2 := congrArg String.data hc
    simp only [eventMaterial, setField, String.data_append, pipe_data, List.append_assoc] at h2
    have h3 := List.append_cancel_left (List.append_cancel_left (List.append_cancel_left
      (List.append_cancel_left (List.append_cancel_left (List.append_cancel_left h2)))))
    exact hdata (List.append_cancel_right h3)
  | fEntityId =>
    intro hc
    have h2 := congrArg String.data hc
    simp only [eventMaterial, setField, String.data_append, pipe_data, List.append_assoc] at h2
    have h3 := List.append_cancel_left (List.append_cancel_left (List.append_cancel_left
      (List.append_cancel_left (List.append_cancel_left (List.append_cancel_left
        (List.append_cancel_left (List.append_cancel_left h2)))))))
    exact hdata (List.append_cancel_right h3)
  | fPayload =>
    intro hc
    have h2 := congrArg String.data hc
    simp only [eventMaterial, setField, String.data_append, pipe_data, List.append_assoc] at h2
    have h3 := List.append_cancel_left (List.append_cancel_left (List.append_cancel_left
      (List.append_cancel_left (List.append_cancel_left (List.append_cancel_left
        (List.append_cancel_left (List.append_cancel_left (List.append_cancel_left
          (List.append_cancel_left h2)))))))))
    exact hdata h3

/-- Mutating any column other than prev_hash leaves prev_hash in place. -/
theorem setField_prev (e : LedgerEvent) (f : EvField) (v : String) (hf : f ≠ .fPrev) :
    (setField e f v).prev_hash = e.prev_hash := by
  cases f with
  | fPrev => exact absurd rfl hf
  | fId => rfl
  | fCreated => rfl
  | fType => rfl
  | fEntityType => rfl
  | fEntityId => rfl
  | fPayload => rfl
  | fHash => rfl

/-! ### Anchor file parsing lemmas -/

theorem splitCh_ne_nil : ∀ l : List Char, splitCh l ≠ [] := by
  intro l
  cases l with
  | nil => simp [splitCh]
  | cons c cs =>
    rw [splitCh]
    by_cases hc : c = '\n'
    · simp [hc]
    · simp [hc]

theorem splitCh_nl (b : List Char) : splitCh ('\n' :: b) = [] :: splitCh b := by
  rw [splitCh]
  simp

theorem splitCh_line (a : List Char) (ha : '\n' ∉ a) :
    ∀ b, splitCh (a ++ '\n' :: b) = a :: splitCh b := by
  induction a with
  | nil => intro b; exact splitCh_nl b
  | cons c t ih =>
    intro b
    have hc : c ≠ '\n' := fun hc => ha (hc ▸ List.mem_cons_self c t)
    have ht : '\n' ∉ t := fun hm => ha (List.mem_cons_of_mem c hm)
    show splitCh (c :: (t ++ '\n' :: b)) = (c :: t) :: splitCh b
    rw [splitCh, if_neg hc, ih ht]
    simp

theorem splitCh_nolf (a : List Char) (ha : '\n' ∉ a) : splitCh a = [a] := by
  induction a with
  | nil => rfl
  | cons c t ih =>
    have hc : c ≠ '\n' := fun hc => ha (hc ▸ List.mem_cons_self c t)
    have ht : '\n' ∉ t := fun hm => ha (List.mem_cons_of_mem c hm)
    rw [splitCh, if_neg hc, ih ht]
    simp

theorem dropWhile_nows (c : Char) (l : List Char) (hc : isPyWs c = false) :
    (c :: l).dropWhile isPyWs = c :: l := by
  rw [List.dropWhile_cons, if_neg (by simp [hc])]

/-- Trailing-whitespace stripping passes over a non-whitespace separator
unharmed: everything right of the equals sign is stripped on its own. -/
theorem stripR_mid (k v : List Char) : stripR (k ++ '=' :: v) = k ++ '=' :: stripR v := by
  unfold stripR
  rw [show (k ++ '=' :: v).reverse = v.reverse ++ '=' :: k.reverse from by
    rw [show ('=' :: v : List Char) = ['='] ++ v from rfl]
    simp]
  rw [List.dropWhile_append]
  by_cases hemp : v.reverse.dropWhile isPyWs = []
  · rw [if_pos (by simp [hemp]), dropWhile_nows '=' k.reverse (by decide), hemp]
    simp
  · rw [if_neg (by simpa using hemp)]
    simp

theorem stripChars_keyline (c : Char) (k v : List Char) (hc : isPyWs c = false) :
    stripChars ((c :: k) ++ '=' :: v) = (c :: k) ++ '=' :: stripR v := by
  unfold stripChars
  rw [List.cons_append, dropWhile_nows c _ hc, ← List.cons_append, stripR_mid]

theorem splitEq1_mid (k v : List Char) (hk : '=' ∉ k) : splitEq1 (k ++ '=' :: v) = (k, v) := by
  induction k with
  | nil => simp [splitEq1]
  | cons c t ih =>
    have hc : c ≠ '=' := fun hc => hk (hc ▸ List.mem_cons_self c t)
    have ht : '=' ∉ t := fun hm => hk (List.mem_cons_of_mem c hm)
    show splitEq1 (c :: (t ++ '=' :: v)) = (c :: t, v)
    rw [splitEq1, if_neg hc, ih ht]

theorem contains_mid (k v : List Char) : (k ++ '=' :: v).contains '=' = true := by
  simp [List.contains]

/-- A list equal to its own two-sided strip is also equal to each
one-sided strip. -/
theorem strip_self (l : List Char) (h : stripChars l = l) :
    stripR l = l ∧ l.dropWhile isPyWs = l := by
  have hlen1 : (l.dropWhile isPyWs).length ≤ l.length :=
    (List.dropWhile_sublist isPyWs).length_le
  have hlen2 : (stripR (l.dropWhile isPyWs)).length ≤ (l.dropWhile isPyWs).length := by
    unfold stripR
    rw [List.length_reverse]
    calc ((l.dropWhile isPyWs).reverse.dropWhile isPyWs).length
        ≤ (l.dropWhile isPyWs).reverse.length := (List.dropWhile_sublist isPyWs).length_le
      _ = (l.dropWhile isPyWs).length := List.length_reverse _
  have hleq : l.length ≤ (l.dropWhile isPyWs).length := by
    conv_lhs => rw [← h]
    exact hlen2.trans (le_refl _)
  have hdw : l.dropWhile isPyWs = l :=
    (List.dropWhile_sublist isPyWs).eq_of_length (Nat.le_antisymm hlen1 hleq)
  refine ⟨?_, hdw⟩
  have := h
  unfold stripChars at this
  rw [hdw] at this
  exact this

/-- Stripping never introduces characters. -/
theorem mem_of_stripChars (c : Char) (l : List Char) (hm : c ∈ stripChars l) : c ∈ l := by
  unfold stripChars stripR at hm
  have h1 := (List.dropWhile_sublist isPyWs).subset (List.mem_reverse.mp hm)
  have h2 := List.mem_reverse.mp h1
  exact (List.dropWhile_sublist isPyWs).subset h2

/-- One parsing step on a line of the shape key=value where the key
starts with a non-blank character and holds no equals sign. -/
theorem parseLine_step (acc : List (String × String)) (c : Char) (k v : List Char)
    (hc : isPyWs c = false) (hk : '=' ∉ c :: k) (hkstrip : stripChars (c :: k) = c :: k) :
    parseLine acc ((c :: k) ++ '=' :: v) =
      acc ++ [(String.mk (c :: k), String.mk (stripChars (stripR v)))] := by
  unfold parseLine
  rw [stripChars_keyline c k v hc, if_pos (contains_mid (c :: k) (stripR v)),
    splitEq1_mid (c :: k) (stripR v) hk]
  rw [hkstrip]

theorem parseLine_blank (acc : List (String × String)) : parseLine acc [] = acc := rfl

theorem mk_data (s : String) : String.mk s.data = s := by
  cases s
  rfl

theorem stripChars_of_pyStrip (h : String) (hh : pyStrip h = h) :
    stripChars h.data = h.data := by
  have h2 := congrArg String.data hh
  exact h2

/-- Parsing the three-line anchor content written by write_anchor_files:
when the hash value is strip-invariant and the three values hold no
newline, the record carries latest_hash bound to the written hash, and
the two later lines bind the other two keys. -/
theorem parseKV_anchor (h ts note : String) (hh : pyStrip h = h) (hlf : '\n' ∉ h.data)
    (hts : '\n' ∉ ts.data) (hn : '\n' ∉ note.data) :
    ∃ v2 v3, parseKV ("latest_hash=" ++ h ++ "\n" ++ "timestamp=" ++ ts ++ "\n" ++
        "note=" ++ note ++ "\n") =
      [("latest_hash", h), ("timestamp", v2), ("note", v3)] := by
  refine ⟨String.mk (stripChars (stripR ts.data)), String.mk (stripChars (stripR note.data)), ?_⟩
  have hsc : stripChars h.data = h.data := stripChars_of_pyStrip h hh
  have hsr : stripR h.data = h.data := (strip_self h.data hsc).1
  have h1 : '\n' ∉ "latest_hash=".data ++ h.data := by
    intro hm
    rcases List.mem_append.mp hm with hm1 | hm2
    · exact absurd hm1 (by decide)
    · exact hlf hm2
  have h2 : '\n' ∉ "timestamp=".data ++ ts.data := by
    intro hm
    rcases List.mem_append.mp hm with hm1 | hm2
    · exact absurd hm1 (by decide)
    · exact hts hm2
  have h3 : '\n' ∉ "note=".data ++ note.data := by
    intro hm
    rcases List.mem_append.mp hm with hm1 | hm2
    · exact absurd hm1 (by decide)
    · exact hn hm2
  unfold parseKV
  rw [show ("latest_hash=" ++ h ++ "\n" ++ "timestamp=" ++ ts ++ "\n" ++
        "note=" ++ note ++ "\n").data =
      ("latest_hash=".data ++ h.data) ++ '\n' ::
        (("timestamp=".data ++ ts.data) ++ '\n' ::
          (("note=".data ++ note.data) ++ '\n' :: ([] : List Char))) from by
    simp [String.data_append]]
  rw [splitCh_line _ h1, splitCh_line _ h2, splitCh_line _ h3]
  show List.foldl parseLine []
    [("latest_hash=".data ++ h.data), ("timestamp=".data ++ ts.data),
      ("note=".data ++ note.data), []] = _
  rw [List.foldl_cons, List.foldl_cons, List.foldl_cons, List.foldl_cons, List.foldl_nil,
    show "latest_hash=".data ++ h.data = ('l' :: "atest_hash".data) ++ '=' :: h.data from rfl,
    parseLine_step [] 'l' "atest_hash".data h.data (by decide) (by decide) (by decide),
    show "timestamp=".data ++ ts.data = ('t' :: "imestamp".data) ++ '=' :: ts.data from rfl,
    parseLine_step _ 't' "imestamp".data ts.data (by decide) (by decide) (by decide),
    show "note=".data ++ note.data = ('n' :: "ote".data) ++ '=' :: note.data from rfl,
    parseLine_step _ 'n' "ote".data note.data (by decide) (by decide) (by decide),
    parseLine_blank]
  rw [hsr, hsc, mk_data]
  rfl

/-- The latest_hash lookup on the parsed anchor record. -/
theorem lookupLast_anchor (h v2 v3 : String) :
    lookupLast "latest_hash" [("latest_hash", h), ("timestamp", v2), ("note", v3)] = some h := by
  simp [lookupLast]

/-- verify_anchor accepts the anchor files freshly written for the tip
of a verifying chain, provided the tip is a well-formed hash value:
nonempty, strip-invariant and newline-free. -/
theorem verify_anchor_rendered (H : String → String) (store : List LedgerEvent)
    (a : AnchorState) (tip ts note : String)
    (hv : Ledger.verify_chain H store = .ok tip)
    (hne : tip ≠ "") (hh : pyStrip tip = tip) (hlf : '\n' ∉ tip.data)
    (hts : '\n' ∉ ts.data) (hn : '\n' ∉ note.data) :
    Ledger.verify_anchor H store (Ledger.write_anchor_files a tip note ts).anchorFile =
      .ok () := by
  obtain ⟨v2, v3, hp⟩ := parseKV_anchor tip ts note hh hlf hts hn
  unfold Ledger.verify_anchor Ledger.read_anchor_file
  rw [hv]
  simp [Ledger.write_anchor_files, hp, lookupLast_anchor, hne]

end ConsequenceLedger

namespace ConsequenceLedger

/-! ## Claim theorems -/

/-- C1 (amended): for every sequence of events appended one at a time via
append_event to an initially empty store, provided the created_at values
are nondecreasing in append order, a subsequent verify_chain raises
nothing and returns the event_hash of the last appended event, and for
an empty sequence it returns the sentinel GENESIS (lastHash of the empty
store). -/
theorem c1_append_then_verify (H : String → String) (inps : List EventInput)
    (s : List LedgerEvent)
    (hmono : chainB leStr (inps.map EventInput.created_at) = true)
    (happ : Ledger.appendEvents H [] inps = some s) :
    Ledger.verify_chain H s = .ok (lastHash s) := by
  obtain ⟨hs, hv⟩ := appendEvents_ok H inps [] s rfl rfl
    (by intro e i h _; exact absurd h (by simp)) hmono happ
  unfold Ledger.verify_chain eventsAsc
  rw [sortBy_eq_self leCreated s hs]
  exact hv

/-- Witness for C1: the two concrete appends with increasing timestamps
verify and return the second hash. -/
theorem c1_append_then_verify_witness :
    Ledger.verify_chain demoHash demoStore = .ok (lastHash demoStore) :=
  c1_append_then_verify demoHash [demoInput1, demoInput2] demoStore (by decide) (by decide)

/-- Counterexample for C1 as frozen: two successful appends whose
created_at values decrease; verify_chain afterwards raises
ChainIntegrityError at index 1 instead of returning the last appended
hash. -/
theorem c1_counterexample :
    Ledger.appendEvents demoHash []
        [{ demoInput1 with created_at := "2026-01-02T00:00:00Z" },
         { demoInput2 with created_at := "2026-01-01T00:00:00Z" }] = some demoStoreOoo ∧
      Ledger.verify_chain demoHash demoStoreOoo = .error (.chainBroken 1) :=
  ⟨by decide, by decide⟩

/-- C2 (amended): in a verified chain stored in created_at order, let
the row at 0-based position equal to the length of A be mutated in one
column to a different value, the created_at order being preserved.  If
the column is one of created_at, event_type, entity_type, entity_id,
payload_json or event_hash, then verify_chain raises TamperError at the
1-based index of that row, provided the recomputed hash of the mutated
row differs from its stored event_hash; for the five material columns
that proviso is only a hash collision away, since the recomputed
material itself always changes.  If the column is prev_hash,
verify_chain raises ChainIntegrityError at that index.  If the column is
event_id, the mutation is not detected and verify_chain still succeeds
with the original tip. -/
theorem c2_mutation_detection (H : String → String) (A B : List LedgerEvent)
    (e : LedgerEvent) (f : EvField) (v : String) (tip : String)
    (hchain : chainB leCreated (A ++ e :: B) = true)
    (hv : Ledger.verify_chain H (A ++ e :: B) = .ok tip)
    (hchain2 : chainB leCreated (A ++ setField e f v :: B) = true)
    (hval : v ≠ fieldVal e f) :
    ((f ≠ .fPrev ∧ f ≠ .fId) →
      H (eventMaterial (setField e f v)) ≠ (setField e f v).event_hash →
      Ledger.verify_chain H (A ++ setField e f v :: B) = .error (.tamper (A.length + 1)))
    ∧ (f = .fPrev →
      Ledger.verify_chain H (A ++ setField e f v :: B) = .error (.chainBroken (A.length + 1)))
    ∧ (f = .fId → Ledger.verify_chain H (A ++ setField e f v :: B) = .ok tip)
    ∧ ((f ≠ .fPrev ∧ f ≠ .fId ∧ f ≠ .fHash) →
      eventMaterial (setField e f v) ≠ eventMaterial e) := by
  unfold Ledger.verify_chain eventsAsc at hv
  rw [sortBy_eq_self leCreated _ hchain] at hv
  cases hA : Ledger.verifyFrom H GENESIS_HASH 1 A with
  | error er =>
    rw [verifyFrom_cat_error hA] at hv
    exact absurd hv (by simp)
  | ok pA =>
    rw [verifyFrom_cat_ok hA] at hv
    rw [Ledger.verifyFrom] at hv
    by_cases hp : e.prev_hash ≠ pA
    · rw [if_pos hp] at hv
      exact absurd hv (by simp)
    · rw [if_neg hp] at hv
      push_neg at hp
      by_cases hh : H (eventMaterial e) ≠ e.event_hash
      · rw [if_pos hh] at hv
        exact absurd hv (by simp)
      · rw [if_neg hh] at hv
        push_neg at hh
        have harith : 1 + A.length = A.length + 1 := Nat.add_comm 1 A.length
        refine ⟨?_, ?_, ?_, ?_⟩
        · intro hf hne
          unfold Ledger.verify_chain eventsAsc
          rw [sortBy_eq_self leCreated _ hchain2, verifyFrom_cat_ok hA, Ledger.verifyFrom,
            if_neg (by rw [setField_prev e f v hf.1, hp]; exact fun hc => hc rfl),
            if_pos hne, harith]
        · intro hfeq
          subst hfeq
          unfold Ledger.verify_chain eventsAsc
          rw [sortBy_eq_self leCreated _ hchain2, verifyFrom_cat_ok hA, Ledger.verifyFrom,
            if_pos (show (setField e .fPrev v).prev_hash ≠ pA from by
              simp only [setField]
              rw [← hp]
              exact fun hc => hval (hc.trans rfl)), harith]
        · intro hfeq
          subst hfeq
          unfold Ledger.verify_chain eventsAsc
          rw [sortBy_eq_self leCreated _ hchain2, verifyFrom_cat_ok hA, Ledger.verifyFrom,
            if_neg (show ¬(setField e .fId v).prev_hash ≠ pA from by
              simp only [setField]
              exact fun hc => hc hp),
            if_neg (show ¬H (eventMaterial (setField e .fId v)) ≠ (setField e .fId v).event_hash
              from by simp only [setField, eventMaterial]; exact fun hc => hc hh)]
          exact hv
        · exact fun hf => materialNe e f v hf hval

/-- Witness for C2: tampering with the event_type of the second row of
the concrete two-row chain is reported as TamperError at index 2. -/
theorem c2_mutation_detection_witness :
    Ledger.verify_chain demoHash [demoEvent1, setField demoEvent2 .fType "tampered"] =
      .error (.tamper 2) :=
  (c2_mutation_detection demoHash [demoEvent1] [] demoEvent2 .fType "tampered"
      demoEvent2.event_hash (by decide) (by decide) (by decide) (by decide)).1
    ⟨by decide, by decide⟩ (by decide)

/-- Counterexample for C2 as frozen: overwriting the stored event_id of
the first row of the valid concrete chain raises nothing; verify_chain
still succeeds, because event_id is not part of the hash material. -/
theorem c2_counterexample :
    Ledger.verify_chain demoHash [setField demoEvent1 .fId "someone-else", demoEvent2] =
      .ok demoEvent2.event_hash := by
  decide

/-- C3: the chain builders of ledger.py and ai_layer.py agree: the same
hash parameter, store and input tuple give the same append_event result,
whole append runs coincide, and the canonical payload serializations
coincide, so two stores fed identical inputs carry identical event_hash
sequences. -/
theorem c3_cross_impl :
    (∀ (H : String → String) (store : List LedgerEvent) (inp : EventInput),
      Ledger.append_event H store inp = AiLayer.append_event H store inp)
    ∧ (∀ (H : String → String) (store : List LedgerEvent) (inps : List EventInput),
      Ledger.appendEvents H store inps = AiLayer.appendEvents H store inps)
    ∧ (∀ p : Json, Ledger.canonical_json p = AiLayer.canonical_json p) := by
  refine ⟨fun H store inp => rfl, ?_, fun p => rfl⟩
  intro H store inps
  induction inps generalizing store with
  | nil => rfl
  | cons i is ih =>
    simp only [Ledger.appendEvents, AiLayer.appendEvents]
    rcases hres : Ledger.append_event H store i with ⟨s3, r⟩
    have hres2 : AiLayer.append_event H store i = (s3, r) := hres
    rw [hres2]
    cases r with
    | ok h => exact ih s3
    | error er => rfl

/-- C4: when verify_chain fails, daily_publish stops at step 1: it
reports the chain error and both anchor files are exactly as before the
call, no overwrite and no appended line, and the store is untouched. -/
theorem c4_abort_before_anchor (H : String → String) (store : List LedgerEvent)
    (a : AnchorState) (ts dateStr label : String) (emailOk : Bool) (e : ChainError)
    (hbad : Ledger.verify_chain H store = .error e) :
    Ledger.daily_publish H store a ts dateStr label emailOk = (store, a, some (.chain e)) := by
  unfold Ledger.daily_publish
  rw [hbad]

/-- Witness for C4: a one-row store whose prev_hash was overwritten is
rejected and the anchor state passed in comes back unchanged. -/
theorem c4_abort_before_anchor_witness :
    Ledger.daily_publish demoHash [setField demoEvent1 .fPrev "XX"] demoAnchor
        "t1" "2026-01-02" "EOD" true =
      ([setField demoEvent1 .fPrev "XX"], demoAnchor, some (.chain (.chainBroken 1))) :=
  c4_abort_before_anchor demoHash [setField demoEvent1 .fPrev "XX"] demoAnchor
    "t1" "2026-01-02" "EOD" true (.chainBroken 1) (by decide)

/-- C5: when the chain verifies but the email transmission fails, for
any cause including missing SMTP configuration, daily_publish reports
the transmission error but the already-written local anchor state is
kept: the anchor file carries the new tip hash and the new history line
stays appended, and the event store is unchanged.  The tip is assumed
well formed as a hash value (nonempty, strip-invariant, newline-free)
and the timestamp, date and label newline-free. -/
theorem c5_transmission_leaves_anchor (H : String → String) (store : List LedgerEvent)
    (a : AnchorState) (ts dateStr label tip : String)
    (hv : Ledger.verify_chain H store = .ok tip)
    (hne : tip ≠ "") (hh : pyStrip tip = tip) (hlf : '\n' ∉ tip.data)
    (hts : '\n' ∉ ts.data) (hd : '\n' ∉ dateStr.data) (hl : '\n' ∉ label.data) :
    Ledger.daily_publish H store a ts dateStr label false =
      (store,
       Ledger.write_anchor_files a tip (pyStrip ("DAILY_ANCHOR " ++ dateStr ++ " " ++ label)) ts,
       some .transmission) := by
  have hnote : '\n' ∉ (pyStrip ("DAILY_ANCHOR " ++ dateStr ++ " " ++ label)).data := by
    intro hm
    have h2 := mem_of_stripChars _ _ hm
    simp only [String.data_append] at h2
    rcases List.mem_append.mp h2 with h3 | h3
    · rcases List.mem_append.mp h3 with h4 | h4
      · rcases List.mem_append.mp h4 with h5 | h5
        · exact absurd h5 (by decide)
        · exact hd h5
      · exact absurd h4 (by decide)
    · exact hl h3
  unfold Ledger.daily_publish
  simp only [hv]
  rw [verify_anchor_rendered H store a tip ts
    (pyStrip ("DAILY_ANCHOR " ++ dateStr ++ " " ++ label)) hv hne hh hlf hts hnote]
  rfl

/-- Witness for C5: a failing transmission on the concrete two-row store
returns the transmission error with the freshly written anchor files. -/
theorem c5_transmission_leaves_anchor_witness :
    Ledger.daily_publish demoHash demoStore demoAnchor "t1" "2026-01-02" "EOD" false =
      (demoStore,
       Ledger.write_anchor_files demoAnchor (lastHash demoStore)
         (pyStrip ("DAILY_ANCHOR " ++ "2026-01-02" ++ " " ++ "EOD")) "t1",
       some .transmission) :=
  c5_transmission_leaves_anchor demoHash demoStore demoAnchor "t1" "2026-01-02" "EOD"
    (lastHash demoStore) (by decide) (by decide) (by decide) (by decide) (by decide)
    (by decide) (by decide)

/-- C6: append_event fails with the duplicate error exactly as the
UNIQUE event_hash index dictates: whenever the computed event_hash
already exists in the store the call errors and the store is unchanged,
and consequently stores with pairwise distinct event_hash values keep
that invariant across any append. -/
theorem c6_duplicate_not_persisted (H : String → String) (store : List LedgerEvent)
    (inp : EventInput) :
    ((∃ e ∈ store, e.event_hash = Ledger.computed_event_hash H store inp) →
      Ledger.append_event H store inp = (store, .error .duplicate))
    ∧ ((store.map LedgerEvent.event_hash).Nodup →
      ((Ledger.append_event H store inp).1.map LedgerEvent.event_hash).Nodup) := by
  constructor
  · rintro ⟨e, he, heq⟩
    have hc : (store.any fun e2 => e2.event_hash = Ledger.computed_event_hash H store inp)
        = true := by
      rw [List.any_eq_true]
      exact ⟨e, he, by simp [heq]⟩
    unfold Ledger.computed_event_hash at hc
    simp only [Ledger.append_event]
    rw [if_pos hc]
  · intro hnd
    simp only [Ledger.append_event]
    split
    · exact hnd
    · next hfalse =>
      simp only [List.map_append, List.map_cons, List.map_nil]
      rw [List.nodup_append]
      refine ⟨hnd, List.nodup_singleton _, ?_⟩
      intro x hx hx2
      simp only [List.mem_singleton] at hx2
      subst hx2
      rcases List.mem_map.mp hx with ⟨e, he, hee⟩
      apply hfalse
      rw [List.any_eq_true]
      exact ⟨e, he, by simp [hee]⟩

/-- Witness for C6: under a constant hash the computed event_hash
collides with the stored row and the append errors, leaving the store as
it was. -/
theorem c6_duplicate_not_persisted_witness :
    Ledger.append_event demoConstHash [demoDupEvent] demoInput1 =
      ([demoDupEvent], .error .duplicate) :=
  (c6_duplicate_not_persisted demoConstHash [demoDupEvent] demoInput1).1
    ⟨demoDupEvent, by decide, by decide⟩

/-- C8 (amended): writing the anchor with write_anchor_files and reading
the file back yields a record whose latest_hash equals the written hash,
provided the hash is strip-invariant and the hash, note and timestamp
hold no newline character. -/
theorem c8_anchor_round_trip (a : AnchorState) (h note ts : String)
    (hh : pyStrip h = h) (hlf : '\n' ∉ h.data) (hts : '\n' ∉ ts.data)
    (hn : '\n' ∉ note.data) :
    anchor_latest (Ledger.write_anchor_files a h note ts).anchorFile = some h := by
  obtain ⟨v2, v3, hp⟩ := parseKV_anchor h ts note hh hlf hts hn
  unfold anchor_latest Ledger.read_anchor_file
  simp [Ledger.write_anchor_files, hp, lookupLast_anchor]

/-- Witness for C8: a concrete round trip through the anchor file. -/
theorem c8_anchor_round_trip_witness :
    anchor_latest (Ledger.write_anchor_files demoAnchor "abc123" "daily" "t1").anchorFile =
      some "abc123" :=
  c8_anchor_round_trip demoAnchor "abc123" "daily" "t1" (by decide) (by decide) (by decide)
    (by decide)

/-- Counterexample for C8 as frozen: a note holding a newline and a
latest_hash= line of its own makes the read-back latest_hash differ from
the written hash. -/
theorem c8_counterexample :
    anchor_latest
        (Ledger.write_anchor_files demoAnchor "h1" "n\nlatest_hash=evil" "t1").anchorFile =
      some "evil" ∧ ("evil" : String) ≠ "h1" :=
  ⟨by decide, by decide⟩

/-- C7 (amended): the two anchor readers split the claimed behavior.
finalize.py read_prev_anchor yields GENESIS, without failing, when the
anchor file is absent or blank, and tolerates a legacy bare-hash file by
yielding the bare hash; ledger.py read_anchor_file raises when the file
is absent, and verify_anchor fails with the missing-latest_hash error
whenever the parsed record lacks that key, in particular on a bare-hash
file, which the ledger-side reader does not tolerate. -/
theorem c7_anchor_readers :
    Finalize.read_prev_anchor none = "GENESIS"
    ∧ (∀ content : String, pyStrip content = "" →
        Finalize.read_prev_anchor (some content) = "GENESIS")
    ∧ (∀ h : String, pyStrip h = h → '\n' ∉ h.data → h ≠ "" →
        beginsWith h.data "latest_hash=".data = false →
        Finalize.read_prev_anchor (some h) = h)
    ∧ Ledger.read_anchor_file none = .error ()
    ∧ (∀ (H : String → String) (store : List LedgerEvent) (content tip : String),
        Ledger.verify_chain H store = .ok tip →
        lookupLast "latest_hash" (parseKV content) = none →
        Ledger.verify_anchor H store (some content) = .error .missingLatest) := by
  refine ⟨rfl, ?_, ?_, rfl, ?_⟩
  · intro content hc
    simp only [Finalize.read_prev_anchor]
    rw [hc]
    simp
  · intro h hs hlf hne hsw
    simp only [Finalize.read_prev_anchor]
    rw [hs, if_neg hne, splitCh_nolf h.data hlf]
    simp only [List.map_cons, List.map_nil, mk_data]
    rw [List.find?_cons_of_neg, List.find?_nil]
    · simp [hs]
    · rw [hs, hsw]
      exact Bool.false_ne_true
  · intro H store content tip hv hl
    unfold Ledger.verify_anchor Ledger.read_anchor_file
    rw [hv]
    simp [hl]

/-- Witness for C7: the bare hash abc123 is yielded by the finalize
reader; the same bare file makes ledger-side verify_anchor fail with the
missing-latest_hash error. -/
theorem c7_anchor_readers_witness :
    Finalize.read_prev_anchor (some "abc123") = "abc123"
    ∧ Ledger.verify_anchor demoHash demoStore (some "abc123") = .error .missingLatest :=
  ⟨c7_anchor_readers.2.2.1 "abc123" (by decide) (by decide) (by decide) (by decide),
   c7_anchor_readers.2.2.2.2 demoHash demoStore "abc123" (lastHash demoStore)
     (by decide) (by decide)⟩

/-- Counterexample for C7 as frozen: no single reader both tolerates the
legacy bare-hash file and fails on an absent record: the ledger-side
parse of a bare-hash file yields no latest_hash at all, and the finalize
reader returns GENESIS instead of failing when the file is absent. -/
theorem c7_counterexample :
    anchor_latest (some "abc123") = none
    ∧ Finalize.read_prev_anchor none = "GENESIS" :=
  ⟨by decide, by decide⟩

/-- C9 (amended): each of the three history writers (write_anchor_files
in ledger.py and in ai_layer.py, append_history_line in finalize.py)
rewrites the history file as exactly the previous content, unchanged,
followed by the one new composed line and a newline; when the composed
parts hold no newline character that suffix is exactly one line. -/
theorem c9_history_append_only (a : AnchorState) (latest note created : String)
    (hist : Option String) (rec : String) :
    ((Ledger.write_anchor_files a latest note created).historyFile =
      some ((a.historyFile.getD "") ++ (created ++ " | " ++ latest ++ " | " ++ note) ++ "\n"))
    ∧ ((AiLayer.write_anchor_files a latest note created).historyFile =
      some ((a.historyFile.getD "") ++ (created ++ " | " ++ latest ++ " | " ++ note) ++ "\n"))
    ∧ Finalize.append_history_line hist rec = some ((hist.getD "") ++ rec ++ "\n")
    ∧ ('\n' ∉ created.data → '\n' ∉ latest.data → '\n' ∉ note.data →
        '\n' ∉ (created ++ " | " ++ latest ++ " | " ++ note).data) := by
  refine ⟨rfl, rfl, rfl, ?_⟩
  intro h1 h2 h3 hm
  simp only [String.data_append] at hm
  rcases List.mem_append.mp hm with hA | hB
  · rcases List.mem_append.mp hA with hC | hD
    · rcases List.mem_append.mp hC with hE | hF
      · rcases List.mem_append.mp hE with hG | hH
        · exact h1 hG
        · exact absurd hH (by decide)
      · exact h2 hF
    · exact absurd hD (by decide)
  · exact h3 hB

/-- Witness for C9: appending one concrete line to the concrete history
keeps the old content as written and the suffix holds no inner
newline. -/
theorem c9_history_append_only_witness :
    (Ledger.write_anchor_files demoAnchor "abc" "daily" "t1").historyFile =
      some ((demoAnchor.historyFile.getD "") ++ ("t1" ++ " | " ++ "abc" ++ " | " ++ "daily") ++ "\n")
    ∧ '\n' ∉ ("t1" ++ " | " ++ "abc" ++ " | " ++ "daily").data :=
  ⟨(c9_history_append_only demoAnchor "abc" "daily" "t1" (some "x\n") "r").1,
   (c9_history_append_only demoAnchor "abc" "daily" "t1" (some "x\n") "r").2.2.2
     (by decide) (by decide) (by decide)⟩

/-- Counterexample for C9 as frozen: a note holding a newline makes
write_anchor_files add two newline-terminated lines to the history file
rather than exactly one. -/
theorem c9_counterexample :
    ((Ledger.write_anchor_files demoAnchor "h1" "a\nb" "t1").historyFile.getD "").data.count '\n'
      = ((demoAnchor.historyFile.getD "").data.count '\n') + 2 := by
  decide

/-- C10: finalize.py anchor_record overwrites the anchor file latest_hash
with the hash of the previous anchor value and the record line joined by
a newline, computed without consulting ledger_events, and appends the
history line record, hash, note; consequently, over a store with a
nonempty verifying chain, once that new hash differs from the chain tip
(it is a well-formed hash value unequal to the tip), verify_anchor
raises the mismatch error. -/
theorem c10_anchor_record_ignores_chain (H : String → String) (store : List LedgerEvent)
    (a : AnchorState) (rec note ts tip : String)
    (hv : Ledger.verify_chain H store = .ok tip) (_hnemp : store ≠ []) :
    (Finalize.anchor_record H a rec note ts =
      ({ anchorFile := some ("latest_hash=" ++
            H (Finalize.read_prev_anchor a.anchorFile ++ "\n" ++ rec) ++ "\n" ++
            "timestamp=" ++ ts ++ "\n" ++ "note=" ++ note ++ "\n"),
          historyFile := some ((a.historyFile.getD "") ++
            (rec ++ " | " ++ H (Finalize.read_prev_anchor a.anchorFile ++ "\n" ++ rec) ++
              " | " ++ note) ++ "\n") },
        H (Finalize.read_prev_anchor a.anchorFile ++ "\n" ++ rec)))
    ∧ (H (Finalize.read_prev_anchor a.anchorFile ++ "\n" ++ rec) ≠ tip →
       H (Finalize.read_prev_anchor a.anchorFile ++ "\n" ++ rec) ≠ "" →
       pyStrip (H (Finalize.read_prev_anchor a.anchorFile ++ "\n" ++ rec)) =
         H (Finalize.read_prev_anchor a.anchorFile ++ "\n" ++ rec) →
       '\n' ∉ (H (Finalize.read_prev_anchor a.anchorFile ++ "\n" ++ rec)).data →
       '\n' ∉ ts.data → '\n' ∉ note.data →
       Ledger.verify_anchor H store (Finalize.anchor_record H a rec note ts).1.anchorFile =
         .error .mismatch) := by
  refine ⟨rfl, ?_⟩
  intro h1 h2 h3 h4 h5 h6
  obtain ⟨v2, v3, hp⟩ :=
    parseKV_anchor (H (Finalize.read_prev_anchor a.anchorFile ++ "\n" ++ rec)) ts note h3 h4 h5 h6
  unfold Ledger.verify_anchor Ledger.read_anchor_file
  rw [hv]
  simp [Finalize.anchor_record, Finalize.write_anchor_file, hp, lookupLast_anchor, h2,
    show ¬(tip = H (Finalize.read_prev_anchor a.anchorFile ++ "\n" ++ rec)) from
      fun hc => h1 hc.symm]

/-- Witness for C10: running anchor_record over the concrete anchor
state while the store holds the concrete verifying two-row chain leaves
an anchor whose latest_hash no longer matches the tip, and verify_anchor
reports the mismatch. -/
theorem c10_anchor_record_ignores_chain_witness :
    Ledger.verify_anchor demoHashNoLf demoStoreB
        (Finalize.anchor_record demoHashNoLf demoAnchor "r1" "finalize" "t2").1.anchorFile =
      .error .mismatch :=
  (c10_anchor_record_ignores_chain demoHashNoLf demoStoreB demoAnchor "r1" "finalize" "t2"
      (lastHash demoStoreB) (by decide) (by decide)).2
    (by decide) (by decide) (by decide) (by decide) (by decide) (by decide)

end ConsequenceLedger
